import Mathlib

/-!
Verification of the ingestion pipeline of the cetec-asistente backend.

This file shallowly embeds the Python ingestion core:

* `app/models/ingestion.py` — enums and request/job records;
* `app/utils/pdf_handler.py` — `PDFHandler.chunk` (fixed-width slicing);
* `app/utils/qdrant_client.py` — `QdrantStore.upsert_chunks` (whose whole
  body is wrapped in `try/except` with a log-only handler);
* `app/services/ingestion_service.py` — `start_ingestion` (candidate-set
  query and job creation), `_process_ingestion` (background loop),
  `cancel_ingestion`, `_download_pdf_from_s3`.

External effects (S3 download results, PDF text extraction, whether the
underlying vector-store client call raises, whether a Mongo status write
raises) are supplied as oracle inputs per document (`DocEffects`), which is
the standard way to embed effectful code as pure functions.  MongoDB
persistence is modelled as explicit record state; the processing loop
returns the sequence of persisted job snapshots so mid-run observations by
a concurrent poller can be stated.
-/

namespace Cetec

/-- `DocumentStatus` from `app/models/documents.py` (values relevant to
ingestion; `uploaded → ingested/failed` are the transitions the core makes). -/
inductive DocumentStatus where
  | uploaded
  | ingested
  | failed
deriving DecidableEq, Repr

/-- `IngestionStatus` from `app/models/ingestion.py`. -/
inductive IngestionStatus where
  | queued
  | running
  | completed
  | failed
  | canceled
deriving DecidableEq, Repr

/-- `IngestionMode` from `app/models/ingestion.py`. -/
inductive IngestionMode where
  | new
  | selected
  | all
  | reingest
deriving DecidableEq, Repr

/-- `IngestionOptions` from `app/models/ingestion.py`, with its pydantic
field defaults. -/
structure IngestionOptions where
  chunk_size : Nat := 1000
  chunk_overlap : Nat := 150
  embed_model : String := "text-embedding-3-large"
  append : Bool := true
deriving DecidableEq, Repr

/-- `IngestionRequest` from `app/models/ingestion.py`.  `doc_ids` and
`options` are pydantic `Optional` fields defaulting to `None`. -/
structure IngestionRequest where
  mode : IngestionMode := IngestionMode.new
  doc_ids : Option (List String) := none
  options : Option IngestionOptions := none
deriving DecidableEq, Repr

/-- A document record in the Mongo `documents` collection, restricted to the
fields the ingestion core reads (`_id`, `subject_slug`, `status`,
`filename`, `s3_key`). -/
structure Doc where
  id : String
  subject_slug : String
  status : DocumentStatus
  filename : String
  s3_key : String
deriving DecidableEq, Repr

/-- The job record persisted in the Mongo `ingestion_jobs` collection,
restricted to the fields the claims are about (`status`, `docs_total`,
`docs_done`, `vectors`); audit fields (`created_at`, `created_by`,
`request`, `logs_url`) are never read back by the core. -/
structure JobRecord where
  status : IngestionStatus
  docs_total : Nat
  docs_done : Nat
  vectors : Nat
deriving DecidableEq, Repr

/-- Python truthiness of `ingestion_request.doc_ids` (an
`Optional[List[str]]`): truthy iff present and non-empty. -/
def truthyIds : Option (List String) → Bool
  | some (_ :: _) => true
  | _ => false

/-- Python truthiness of the value returned by `_download_pdf_from_s3`:
`None` on failure (the function catches every exception and returns
`None`), otherwise the downloaded bytes; `if pdf_content:` is true iff the
bytes are present and non-empty. -/
def truthyBytes : Option (List Nat) → Bool
  | some (_ :: _) => true
  | _ => false

/-- Python truthiness of `s.strip()`: true iff `s` contains at least one
non-whitespace character (empty and whitespace-only strings are falsy). -/
def stripTruthy (s : String) : Bool :=
  s.data.any (fun c => !c.isWhitespace)

/-- Mongo `update_one({"_id": id}, {"$set": {"status": st}})` on the
`documents` collection: sets the status of the first record whose `_id`
matches. -/
def setStatusFirst : List Doc → String → DocumentStatus → List Doc
  | [], _, _ => []
  | d :: ds, i, st =>
      if d.id = i then { d with status := st } :: ds
      else d :: setStatusFirst ds i st

/-- Fuel-indexed core of `PDFHandler.chunk`
(`[text[i : i + cs] for i in range(0, len(text), cs)]`): for `cs ≥ 1` and
fuel at least `len text`, peels off `cs`-character slices in order.  For a
non-empty list `x :: xs`, the Python slice step `i += cs` is
`(x :: xs).drop cs = xs.drop (cs - 1)`.  Fuel makes the recursion
structural, hence kernel-evaluable. -/
def chunkGo : Nat → Nat → List Char → List (List Char)
  | _, _, [] => []
  | 0, _, _ :: _ => []
  | fuel + 1, cs, x :: xs => ((x :: xs).take cs) :: chunkGo fuel cs (xs.drop (cs - 1))

/-- The slicing comprehension of `PDFHandler.chunk` for a non-zero chunk
size: `len text` fuel always suffices. -/
def chunkCore (cs : Nat) (text : List Char) : List (List Char) :=
  chunkGo text.length cs text

/-- `PDFHandler.chunk(text, chunk_size)`.  Python's `range(0, n, 0)` raises
`ValueError`, modelled as `none`; for a positive step the comprehension is
`chunkCore`. -/
def chunk (text : List Char) (cs : Nat) : Option (List (List Char)) :=
  if cs = 0 then none else some (chunkCore cs text)

/-- Result of running a Python call: normal return or a raised exception. -/
inductive PyResult (α : Type) where
  | ok : α → PyResult α
  | exn : String → PyResult α
deriving DecidableEq, Repr

/-- The underlying `AsyncQdrantClient.upsert` network call inside
`QdrantStore.upsert_chunks`; whether it raises is an external effect
supplied by the oracle flag. -/
def clientUpsert (raises : Bool) : PyResult Unit :=
  if raises then PyResult.exn "qdrant client upsert failed" else PyResult.ok ()

/-- `ErrorHandler.handle` from `app/utils/error_handler.py`: it only logs
the exception and returns normally — it never re-raises. -/
def errorHandlerHandle (_e : String) : PyResult Unit :=
  PyResult.ok ()

/-- `QdrantStore.upsert_chunks` from `app/utils/qdrant_client.py`, with
chunks reduced to their text field (the only field driving control flow:
`if not t: continue` skips falsy texts).  The entire body sits inside
`try: ... except Exception as e: self.error_handler.handle(e, ...)`, so a
failure of the underlying client call is caught and only logged; the
method then returns `None` normally. -/
def upsert_chunks (clientRaises : Bool) (chunkTexts : List String) : PyResult Unit :=
  let kept := chunkTexts.filter (fun t => t ≠ "")
  let body := if kept.isEmpty then PyResult.ok () else clientUpsert clientRaises
  match body with
  | PyResult.ok _ => PyResult.ok ()
  | PyResult.exn e => errorHandlerHandle e

/-- The `docs_query` filter built by `IngestionService.start_ingestion`
(lines 54–64), branch for branch, including the fall-through to the NEW
query when the mode is `selected` but `doc_ids` is falsy. -/
def docsQuery (subject : String) (mode : IngestionMode) (doc_ids : Option (List String))
    (d : Doc) : Bool :=
  if mode = IngestionMode.new then
    d.subject_slug = subject ∧ d.status = DocumentStatus.uploaded
  else if mode = IngestionMode.selected ∧ truthyIds doc_ids then
    d.subject_slug = subject ∧ d.status = DocumentStatus.uploaded ∧
      (doc_ids.getD []).contains d.id
  else if mode = IngestionMode.all then
    d.subject_slug = subject ∧
      (d.status = DocumentStatus.uploaded ∨ d.status = DocumentStatus.ingested)
  else if mode = IngestionMode.reingest then
    d.subject_slug = subject ∧ d.status = DocumentStatus.ingested
  else
    d.subject_slug = subject ∧ d.status = DocumentStatus.uploaded

/-- The mode filters exactly as the specification words them (for the
refinement comparison in claim C5): `selected` means membership in the
caller-supplied id list, with no fallback. -/
def specModeFilter (subject : String) (mode : IngestionMode) (doc_ids : Option (List String))
    (d : Doc) : Bool :=
  match mode with
  | IngestionMode.new =>
      d.subject_slug = subject ∧ d.status = DocumentStatus.uploaded
  | IngestionMode.selected =>
      d.subject_slug = subject ∧ d.status = DocumentStatus.uploaded ∧
        (doc_ids.getD []).contains d.id
  | IngestionMode.all =>
      d.subject_slug = subject ∧
        (d.status = DocumentStatus.uploaded ∨ d.status = DocumentStatus.ingested)
  | IngestionMode.reingest =>
      d.subject_slug = subject ∧ d.status = DocumentStatus.ingested

/-- `IngestionService.start_ingestion`: builds the query, counts the
candidate set on the registry as it is at creation time
(`count_documents(docs_query)`), and inserts the queued job record with
`docs_done = 0`, `vectors = 0`.  Returns the job record and the query the
background task is dispatched with. -/
def start_ingestion (subject : String) (req : IngestionRequest) (registry : List Doc) :
    JobRecord × (Doc → Bool) :=
  let q := docsQuery subject req.mode req.doc_ids
  ({ status := IngestionStatus.queued
     docs_total := (registry.filter q).length
     docs_done := 0
     vectors := 0 }, q)

/-- Per-document external effect outcomes (the oracle for one iteration of
the processing loop):

* `download` — what `_download_pdf_from_s3` returns: the object bytes, or
  `none` when the S3 fetch raised (the helper catches every exception, logs,
  and returns `None`);
* `text` — what `PDFHandler.read` returns for the downloaded file (that
  method is fail-soft and returns `""` on parse errors);
* `upsertClientRaises` — whether the underlying Qdrant client call inside
  `upsert_chunks` raises;
* `markIngestedRaises` — whether the Mongo
  `documents_collection.update_one(..., status = ingested)` call (line 253)
  raises; this is a transient I/O failure occurring inside the
  per-document `try` scope, after `total_vectors` was already increased. -/
structure DocEffects where
  download : Option (List Nat)
  text : String
  upsertClientRaises : Bool
  markIngestedRaises : Bool
deriving DecidableEq, Repr

/-- In-flight state of `_process_ingestion`: the `documents` collection,
the local counters `docs_processed` and `total_vectors`, and the persisted
job record in the `ingestion_jobs` collection. -/
structure ProcState where
  registry : List Doc
  docs_processed : Nat
  total_vectors : Nat
  job : JobRecord
deriving DecidableEq, Repr

/-- The chunk size `_process_ingestion` passes to `PDFHandler.chunk`
(line 224): the literal `1000`; the request's `options` are not consulted
by the loop. -/
def loopChunkSize (_req : IngestionRequest) : Nat := 1000

/-- Modelled from the spec (claim C6 refinement side): the chunk size the
specification says is used — the caller-supplied `options.chunk_size`,
defaulting to 1000 when the caller leaves the options unset. -/
def requestChunkSize (req : IngestionRequest) : Nat :=
  match req.options with
  | some o => o.chunk_size
  | none => 1000

/-- Tail of the per-document `try` body (lines 271–281): increment the
local `docs_processed` and persist `{docs_done, vectors}` on the job
record. -/
def finishDoc (st : ProcState) : ProcState :=
  let n := st.docs_processed + 1
  { st with
      docs_processed := n
      job := { st.job with docs_done := n, vectors := st.total_vectors } }

/-- The `except` handler of the per-document loop (lines 283–290): mark the
document `failed`, increment the local `docs_processed`, and do NOT touch
the job record (the progress persist of lines 275–281 sits inside the
`try` and was skipped).  `vec` is the value `total_vectors` had when the
exception was raised. -/
def docExceptPath (st : ProcState) (d : Doc) (vec : Nat) : ProcState :=
  { st with
      registry := setStatusFirst st.registry d.id DocumentStatus.failed
      docs_processed := st.docs_processed + 1
      total_vectors := vec }

/-- One iteration of the per-document loop of
`IngestionService._process_ingestion` (lines 202–290), translated branch
for branch:

* falsy download ⇒ log only, fall through to `docs_processed += 1` and the
  progress persist;
* falsy `text.strip()` ⇒ same fall-through, no status change;
* otherwise chunk with size 1000, keep chunks whose `strip()` is truthy;
* empty `qdrant_chunks` ⇒ fall-through, no upsert, no status change;
* otherwise call `upsert_chunks` — if it raised the inner handler re-raises
  to the document-level `except`; on normal return `total_vectors` grows by
  `len(qdrant_chunks)` and the document is marked `ingested` (a raise of
  that Mongo write goes to the document-level `except` with the vectors
  increment already applied). -/
def processDoc (req : IngestionRequest) (st : ProcState) (d : Doc) (eff : DocEffects) :
    ProcState :=
  if truthyBytes eff.download then
    if stripTruthy eff.text then
      let chunks := (chunkCore (loopChunkSize req) eff.text.data).map (fun l => String.mk l)
      let qdrant_chunks := chunks.filter stripTruthy
      if qdrant_chunks.isEmpty then
        finishDoc st
      else
        match upsert_chunks eff.upsertClientRaises qdrant_chunks with
        | PyResult.exn _ => docExceptPath st d st.total_vectors
        | PyResult.ok _ =>
            let vec := st.total_vectors + qdrant_chunks.length
            if eff.markIngestedRaises then
              docExceptPath st d vec
            else
              finishDoc { st with
                registry := setStatusFirst st.registry d.id DocumentStatus.ingested
                total_vectors := vec }
    else
      finishDoc st
  else
    finishDoc st

/-- The per-document loop over the cursor snapshot, also returning the
sequence of persisted job snapshots (one observation per document, i.e.
the state of the `ingestion_jobs` record once the iteration for that
document has ended). -/
def runLoop (req : IngestionRequest) (eff : String → DocEffects) :
    List Doc → ProcState → ProcState × List JobRecord
  | [], st => (st, [])
  | d :: ds, st =>
      let st1 := processDoc req st d (eff d.id)
      let p := runLoop req eff ds st1
      (p.1, st1.job :: p.2)

/-- The final job update of `_process_ingestion` (lines 298–305): an
`update_one` whose filter matches on `_id` only, so it sets
`status = completed` and the final counters unconditionally — whatever the
current status of the record is. -/
def finalCompletedWrite (job : JobRecord) (docs_processed vectors : Nat) : JobRecord :=
  { job with
      status := IngestionStatus.completed
      docs_done := docs_processed
      vectors := vectors }

/-- `IngestionService._process_ingestion` for a run in which no exception
escapes the per-document scope: set the job `running` (an `update_one`
filtered on `_id` only), initialize the vector store (`init_store` catches
everything internally and cannot raise), run `find(docs_query)` against the
registry as it is when the background task executes, process each matching
document, and finally write `status = completed` with the final counters.
Returns the final state and the persisted job snapshots (the `running`
write, one per document, and the final write). -/
def process_ingestion (req : IngestionRequest) (query : Doc → Bool)
    (registryAtLoop : List Doc) (job0 : JobRecord) (eff : String → DocEffects) :
    ProcState × List JobRecord :=
  let jobRunning := { job0 with status := IngestionStatus.running }
  let docs := registryAtLoop.filter query
  let st0 : ProcState :=
    { registry := registryAtLoop, docs_processed := 0, total_vectors := 0, job := jobRunning }
  let p := runLoop req eff docs st0
  let final := finalCompletedWrite p.1.job p.1.docs_processed p.1.total_vectors
  ({ p.1 with job := final }, jobRunning :: p.2 ++ [final])

/-- `IngestionService.cancel_ingestion`: an `update_one` whose filter
requires the current status to be `queued` or `running`; it sets
`canceled` and reports `modified_count > 0`. -/
def cancel_ingestion (job : JobRecord) : JobRecord × Bool :=
  if job.status = IngestionStatus.queued ∨ job.status = IngestionStatus.running then
    ({ job with status := IngestionStatus.canceled }, true)
  else
    (job, false)

/-! ### Concrete fixtures used by counterexamples and witnesses -/

/-- An uploaded document of subject `"s"`. -/
def doc1 : Doc :=
  { id := "d1", subject_slug := "s", status := DocumentStatus.uploaded,
    filename := "f1.pdf", s3_key := "k1" }

/-- A second uploaded document of subject `"s"`. -/
def doc2 : Doc :=
  { id := "d2", subject_slug := "s", status := DocumentStatus.uploaded,
    filename := "f2.pdf", s3_key := "k2" }

/-- The default ingestion request (`mode = new`, no ids, no options). -/
def req0 : IngestionRequest := {}

/-- Benign effects: download succeeds, text `"hi"`, nothing raises. -/
def effOk : DocEffects :=
  { download := some [1], text := "hi", upsertClientRaises := false,
    markIngestedRaises := false }

/-- Effects of a document whose S3 fetch fails (`_download_pdf_from_s3`
returns `None`). -/
def effFetchFail : DocEffects :=
  { effOk with download := none }

/-- Effects of a document whose underlying Qdrant client upsert raises. -/
def effUpsertFail : DocEffects :=
  { effOk with upsertClientRaises := true }

/-- Effects of a document whose ingested-status Mongo write raises inside
the per-document `try`. -/
def effMarkFail : DocEffects :=
  { effOk with markIngestedRaises := true }

/-- Effects of a document whose extracted text is whitespace-only. -/
def effWs : DocEffects :=
  { effOk with text := "  \n" }

/-- A mid-run processing state over the single-document registry. -/
def stA : ProcState :=
  { registry := [doc1], docs_processed := 0, total_vectors := 0,
    job := { status := IngestionStatus.running, docs_total := 1, docs_done := 0, vectors := 0 } }

/-- Job record created for subject `"s"` over the two-document registry. -/
def jobQ2 : JobRecord := (start_ingestion "s" req0 [doc1, doc2]).1

/-- A running job record (mid-run snapshot). -/
def jobRun : JobRecord :=
  { status := IngestionStatus.running, docs_total := 3, docs_done := 1, vectors := 4 }

/-- A `selected`-mode request whose `doc_ids` list is present but empty. -/
def reqSelEmpty : IngestionRequest :=
  { mode := IngestionMode.selected, doc_ids := some [], options := none }

/-- A request whose caller-supplied options set `chunk_size = 500`. -/
def req500 : IngestionRequest :=
  { mode := IngestionMode.new, doc_ids := none,
    options := some { chunk_size := 500, chunk_overlap := 150,
                      embed_model := "text-embedding-3-large", append := true } }

/-- Per-document effects for the C9 run: the first document's
ingested-status write raises, the second document goes through cleanly. -/
def effById : String → DocEffects := fun i =>
  if i = "d1" then effMarkFail else effOk

/-! ### Helper lemmas -/

/-- `QdrantStore.upsert_chunks` can never be observed to raise by its
caller: its whole body is inside `try/except` and `ErrorHandler.handle`
only logs, so the method always returns normally. -/
theorem upsert_chunks_ok (b : Bool) (l : List String) :
    upsert_chunks b l = PyResult.ok () := by
  simp only [upsert_chunks]
  split <;> simp [errorHandlerHandle]

/-- Every branch of the per-document iteration increments the local
`docs_processed` by one, preserves the job's `docs_total` and `status`, and
either leaves the persisted `docs_done` alone (exception path) or sets it
to the new `docs_processed` (normal path). -/
theorem processDoc_job (req : IngestionRequest) (st : ProcState) (d : Doc) (e : DocEffects) :
    (processDoc req st d e).docs_processed = st.docs_processed + 1 ∧
    (processDoc req st d e).job.docs_total = st.job.docs_total ∧
    (processDoc req st d e).job.status = st.job.status ∧
    ((processDoc req st d e).job.docs_done = st.job.docs_done ∨
      (processDoc req st d e).job.docs_done = st.docs_processed + 1) := by
  simp only [processDoc, upsert_chunks_ok]
  split_ifs <;> simp [finishDoc, docExceptPath]

/-! ### Claim C1 -/

/-- C1: the claim says a failed vector-store upsert is observed by the Job
Manager as a document-level failure (document marked `failed`, vectors not
increased).  The code cannot do this: `upsert_chunks` catches every
exception of its body and only logs it, so it always returns normally; the
Job Manager's re-raise handler is unreachable, and at the concrete failing
input the document is marked `ingested` and the chunk count is added to the
job's vectors — the failure is silently reported as success. -/
theorem c1_upsert_failure_reported_as_success :
    (∀ (b : Bool) (l : List String), upsert_chunks b l = PyResult.ok ()) ∧
    (processDoc req0 stA doc1 effUpsertFail).registry =
      [{ doc1 with status := DocumentStatus.ingested }] ∧
    (processDoc req0 stA doc1 effUpsertFail).job =
      { status := IngestionStatus.running, docs_total := 1, docs_done := 1, vectors := 1 } :=
  ⟨upsert_chunks_ok, by decide, by decide⟩

/-! ### Claim C2 -/

/-- C2 counterexample: a job over one document whose S3 fetch fails.  The
document's status stays `uploaded` — it is NOT marked `failed` as the claim
states — while `docs_done` increments and the job completes. -/
theorem c2_fetch_failure_counterexample :
    (process_ingestion req0 (start_ingestion "s" req0 [doc1]).2 [doc1]
        (start_ingestion "s" req0 [doc1]).1 (fun _ => effFetchFail)).1.registry = [doc1] ∧
    doc1.status = DocumentStatus.uploaded ∧
    DocumentStatus.uploaded ≠ DocumentStatus.failed ∧
    (process_ingestion req0 (start_ingestion "s" req0 [doc1]).2 [doc1]
        (start_ingestion "s" req0 [doc1]).1 (fun _ => effFetchFail)).1.job =
      { status := IngestionStatus.completed, docs_total := 1, docs_done := 1, vectors := 0 } := by
  decide

/-- C2 (amended): a fetch failure is a logged no-op for the document — its
status is left unchanged (not marked `failed`), nothing is added to the
vectors total, `docs_done` still increments and is persisted, the loop
continues, and a run without job-level error still ends `completed`. -/
theorem c2_fetch_failure_is_noop :
    (∀ (req : IngestionRequest) (st : ProcState) (d : Doc) (e : DocEffects),
       truthyBytes e.download = false →
       (processDoc req st d e).registry = st.registry ∧
       (processDoc req st d e).total_vectors = st.total_vectors ∧
       (processDoc req st d e).docs_processed = st.docs_processed + 1 ∧
       (processDoc req st d e).job =
         { st.job with docs_done := st.docs_processed + 1, vectors := st.total_vectors }) ∧
    (∀ (req : IngestionRequest) (q : Doc → Bool) (reg : List Doc) (job0 : JobRecord)
       (eff : String → DocEffects),
       (process_ingestion req q reg job0 eff).1.job.status = IngestionStatus.completed) := by
  constructor
  · intro req st d e h
    simp [processDoc, h, finishDoc]
  · intro req q reg job0 eff
    simp [process_ingestion, finalCompletedWrite]

/-- C2 witness: the amended theorem applied to the concrete fetch-failure
effects. -/
theorem c2_fetch_failure_is_noop_witness :
    truthyBytes effFetchFail.download = false ∧
    (processDoc req0 stA doc1 effFetchFail).registry = stA.registry :=
  ⟨by decide, (c2_fetch_failure_is_noop.1 req0 stA doc1 effFetchFail (by decide)).1⟩

/-! ### Claim C3 -/

/-- C3 counterexample: a running job is canceled (reaching the terminal
state `canceled`), after which the processing loop's final status write —
whose Mongo filter matches on `_id` only — still changes the status to
`completed`: resurrection from a terminal state. -/
theorem c3_resurrection_counterexample :
    (cancel_ingestion jobRun).2 = true ∧
    (cancel_ingestion jobRun).1.status = IngestionStatus.canceled ∧
    (finalCompletedWrite (cancel_ingestion jobRun).1 3 9).status = IngestionStatus.completed ∧
    IngestionStatus.completed ≠ IngestionStatus.canceled := by
  decide

/-- C3 (amended): cancellation itself is guarded — it never changes a
terminal status (its filter only matches `queued`/`running`, and it reports
no modification on a terminal job) — but the loop's final status write is
unconditional: it always sets `completed`, whatever the current status, so
a job canceled after the loop started is overwritten. -/
theorem c3_cancel_guarded_final_write_unconditional :
    (∀ j : JobRecord,
       (j.status = IngestionStatus.completed ∨ j.status = IngestionStatus.failed ∨
         j.status = IngestionStatus.canceled) →
       cancel_ingestion j = (j, false)) ∧
    (∀ (j : JobRecord) (dp v : Nat),
       (finalCompletedWrite j dp v).status = IngestionStatus.completed) := by
  constructor
  · intro j h
    rcases h with h | h | h <;> simp [cancel_ingestion, h]
  · intro j dp v
    rfl

/-- C3 witness: the amended theorem applied to a concrete completed job. -/
theorem c3_cancel_guarded_final_write_unconditional_witness :
    cancel_ingestion
        { status := IngestionStatus.completed, docs_total := 1, docs_done := 1, vectors := 0 } =
      ({ status := IngestionStatus.completed, docs_total := 1, docs_done := 1, vectors := 0 },
        false) :=
  c3_cancel_guarded_final_write_unconditional.1 _ (Or.inl rfl)

/-! ### Claim C4 (counterexample; amended theorem follows later) -/

/-- C4 counterexample: `docs_total` is counted at creation over a registry
with one matching document, but a second matching document is added before
the background loop runs its own `find` — the loop processes both, so
`docs_done` ends at 2, exceeding `docs_total = 1`. -/
theorem c4_docs_done_exceeds_total_counterexample :
    (start_ingestion "s" req0 [doc1]).1.docs_total = 1 ∧
    (process_ingestion req0 (start_ingestion "s" req0 [doc1]).2 [doc1, doc2]
        (start_ingestion "s" req0 [doc1]).1 (fun _ => effOk)).1.job.docs_done = 2 ∧
    ¬(2 ≤ 1) := by
  decide

/-! ### Claim C5 (counterexample; amended theorem follows later) -/

/-- C5 counterexample: for `mode = selected` with an empty caller-supplied
id list, the claimed filter (uploaded AND id in the list) matches nothing,
but the code falls back to the NEW query and records `docs_total = 1` over
a registry with one uploaded document. -/
theorem c5_selected_empty_counterexample :
    (start_ingestion "s" reqSelEmpty [doc1]).1.docs_total = 1 ∧
    ([doc1].filter (specModeFilter "s" IngestionMode.selected (some []))).length = 0 ∧
    (1 : Nat) ≠ 0 := by
  decide

/-! ### Claim C6 -/

/-- C6 counterexample: a request whose options set `chunk_size = 500`.  The
claim says the loop uses the caller-supplied size (500); the loop's call
site hardcodes `chunk_size=1000` and never consults the options. -/
theorem c6_chunk_size_counterexample :
    requestChunkSize req500 = 500 ∧
    loopChunkSize req500 = 1000 ∧
    loopChunkSize req500 ≠ requestChunkSize req500 := by
  decide

/-- C6 (amended): the per-document loop always chunks with size 1000,
whatever the request's options say; this coincides with the caller's value
only in the default case, i.e. when the caller leaves the options unset. -/
theorem c6_loop_chunk_size_always_1000 :
    (∀ req : IngestionRequest, loopChunkSize req = 1000) ∧
    (∀ req : IngestionRequest, req.options = none → requestChunkSize req = loopChunkSize req) := by
  constructor
  · intro req
    rfl
  · intro req h
    simp [requestChunkSize, loopChunkSize, h]

/-- C6 witness: the amended theorem applied to the default request (options
unset) and to the concrete 500-chunk-size request. -/
theorem c6_loop_chunk_size_always_1000_witness :
    loopChunkSize req500 = 1000 ∧ requestChunkSize req0 = loopChunkSize req0 :=
  ⟨c6_loop_chunk_size_always_1000.1 req500, c6_loop_chunk_size_always_1000.2 req0 rfl⟩

/-! ### Claim C8 -/

/-- C8: a document whose extracted text is empty or whitespace-only is a
no-op — the registry (hence that document's status) is unchanged, nothing
is added to the vectors total — yet `docs_done` still increments and is
persisted with the unchanged vectors count. -/
theorem c8_whitespace_text_is_noop (req : IngestionRequest) (st : ProcState) (d : Doc)
    (e : DocEffects) (hd : truthyBytes e.download = true) (ht : stripTruthy e.text = false) :
    (processDoc req st d e).registry = st.registry ∧
    (processDoc req st d e).total_vectors = st.total_vectors ∧
    (processDoc req st d e).docs_processed = st.docs_processed + 1 ∧
    (processDoc req st d e).job =
      { st.job with docs_done := st.docs_processed + 1, vectors := st.total_vectors } := by
  simp [processDoc, hd, ht, finishDoc]

/-- C8 witness: the theorem applied to concrete whitespace-only-text
effects. -/
theorem c8_whitespace_text_is_noop_witness :
    truthyBytes effWs.download = true ∧ stripTruthy effWs.text = false ∧
    (processDoc req0 stA doc1 effWs).registry = stA.registry :=
  ⟨by decide, by decide,
    (c8_whitespace_text_is_noop req0 stA doc1 effWs (by decide) (by decide)).1⟩

/-! ### Claim C9 -/

/-- C9 counterexample: a two-document run whose first document fails (its
ingested-status write raises inside the per-document `try`).  The persisted
snapshot after document 1 still shows `docs_done = 0`: the failed
document's progress was not persisted before document 2 started, contrary
to the claim. -/
theorem c9_failed_doc_progress_not_persisted_counterexample :
    (process_ingestion req0 (start_ingestion "s" req0 [doc1, doc2]).2 [doc1, doc2] jobQ2
        effById).2 =
      [{ status := IngestionStatus.running, docs_total := 2, docs_done := 0, vectors := 0 },
        { status := IngestionStatus.running, docs_total := 2, docs_done := 0, vectors := 0 },
        { status := IngestionStatus.running, docs_total := 2, docs_done := 2, vectors := 2 },
        { status := IngestionStatus.completed, docs_total := 2, docs_done := 2, vectors := 2 }] ∧
    ¬(((process_ingestion req0 (start_ingestion "s" req0 [doc1, doc2]).2 [doc1, doc2] jobQ2
          effById).2)[1]?.map JobRecord.docs_done = some 1) := by
  decide

/-- C9 (amended): the job record is persisted to reflect the document after
every document whose per-document body raises no exception (success,
fetch-failure and no-op paths alike); when the document-level exception
handler fires, `docs_done` is incremented in memory only, and the persisted
record catches up at the next non-raising document's update or at the final
job write, which persists the final counters. -/
theorem c9_progress_persisted_on_nonraising_docs :
    (∀ (req : IngestionRequest) (st : ProcState) (d : Doc) (e : DocEffects),
       e.markIngestedRaises = false →
       (processDoc req st d e).docs_processed = st.docs_processed + 1 ∧
       (processDoc req st d e).job.docs_done = (processDoc req st d e).docs_processed ∧
       (processDoc req st d e).job.vectors = (processDoc req st d e).total_vectors) ∧
    (∀ (req : IngestionRequest) (q : Doc → Bool) (reg : List Doc) (job0 : JobRecord)
       (eff : String → DocEffects),
       (process_ingestion req q reg job0 eff).1.job.docs_done =
         (process_ingestion req q reg job0 eff).1.docs_processed ∧
       (process_ingestion req q reg job0 eff).1.job.vectors =
         (process_ingestion req q reg job0 eff).1.total_vectors) := by
  constructor
  · intro req st d e h
    simp only [processDoc, upsert_chunks_ok]
    split_ifs <;> simp_all [finishDoc, docExceptPath]
  · intro req q reg job0 eff
    simp [process_ingestion, finalCompletedWrite]

/-- C9 witness: the amended theorem applied to concrete benign effects. -/
theorem c9_progress_persisted_on_nonraising_docs_witness :
    effOk.markIngestedRaises = false ∧
    (processDoc req0 stA doc1 effOk).docs_processed = 1 :=
  ⟨by decide, (c9_progress_persisted_on_nonraising_docs.1 req0 stA doc1 effOk (by decide)).1⟩

/-! ### Claim C10 -/

/-- C10: a `selected`-mode request whose `doc_ids` is absent or empty
silently falls back to the NEW-mode query (the subject's uploaded
documents): the filters agree on every document and the created job handle
is the same as for a NEW-mode request. -/
theorem c10_selected_empty_falls_back_to_new (subject : String) (ids : Option (List String))
    (reg : List Doc) (h : truthyIds ids = false) :
    (∀ d, docsQuery subject IngestionMode.selected ids d =
      docsQuery subject IngestionMode.new none d) ∧
    (start_ingestion subject { mode := IngestionMode.selected, doc_ids := ids, options := none }
        reg).1 =
      (start_ingestion subject { mode := IngestionMode.new, doc_ids := none, options := none }
        reg).1 := by
  have hq : ∀ d, docsQuery subject IngestionMode.selected ids d =
      docsQuery subject IngestionMode.new none d := by
    intro d
    simp [docsQuery, h]
  have hfun : docsQuery subject IngestionMode.selected ids =
      docsQuery subject IngestionMode.new none := funext hq
  exact ⟨hq, by simp [start_ingestion, hfun]⟩

/-- C10 witness: the theorem applied to the concrete empty id list. -/
theorem c10_selected_empty_falls_back_to_new_witness :
    truthyIds (some []) = false ∧
    docsQuery "s" IngestionMode.selected (some []) doc1 =
      docsQuery "s" IngestionMode.new none doc1 :=
  ⟨by decide, (c10_selected_empty_falls_back_to_new "s" (some []) [doc1] (by decide)).1 doc1⟩

/-! ### Chunking lemmas (for claim C7) -/

/-- `chunkGo` on the empty list is empty, whatever the fuel. -/
theorem chunkGo_nil (fuel cs : Nat) : chunkGo fuel cs [] = [] := by
  cases fuel <;> rfl

/-- Any two sufficient fuels give the same slicing. -/
theorem chunkGo_eq_of_le (cs : Nat) :
    ∀ (f1 : Nat) (l : List Char) (f2 : Nat), l.length ≤ f1 → l.length ≤ f2 →
      chunkGo f1 cs l = chunkGo f2 cs l := by
  intro f1
  induction f1 with
  | zero =>
    intro l f2 h1 _
    have hl : l = [] := List.eq_nil_of_length_eq_zero (Nat.le_zero.mp h1)
    subst hl
    simp [chunkGo_nil]
  | succ f ih =>
    intro l f2 h1 h2
    cases l with
    | nil => simp [chunkGo_nil]
    | cons x xs =>
      cases f2 with
      | zero => simp at h2
      | succ f2p =>
        simp only [chunkGo]
        congr 1
        apply ih
        · simp only [List.length_drop]
          simp only [List.length_cons] at h1
          omega
        · simp only [List.length_drop]
          simp only [List.length_cons] at h2
          omega

/-- Unfolding equation of `chunkCore` on a non-empty list. -/
theorem chunkCore_cons (cs : Nat) (x : Char) (xs : List Char) :
    chunkCore cs (x :: xs) = ((x :: xs).take cs) :: chunkCore cs (xs.drop (cs - 1)) := by
  simp only [chunkCore, List.length_cons, chunkGo]
  congr 1
  apply chunkGo_eq_of_le
  · simp only [List.length_drop]
    omega
  · exact le_refl _

/-- Concatenating the slices in order rebuilds the input. -/
theorem chunkGo_join (cs : Nat) (hcs : 0 < cs) :
    ∀ (fuel : Nat) (l : List Char), l.length ≤ fuel → (chunkGo fuel cs l).flatten = l := by
  intro fuel
  induction fuel with
  | zero =>
    intro l h
    have hl : l = [] := List.eq_nil_of_length_eq_zero (Nat.le_zero.mp h)
    subst hl
    rfl
  | succ f ih =>
    intro l h
    cases l with
    | nil => rfl
    | cons x xs =>
      simp only [chunkGo, List.flatten_cons]
      rw [ih (xs.drop (cs - 1)) (by
        simp only [List.length_drop]
        simp only [List.length_cons] at h
        omega)]
      obtain ⟨k, rfl⟩ : ∃ k, cs = k + 1 := ⟨cs - 1, by omega⟩
      simp only [List.take_succ_cons, Nat.add_sub_cancel, List.cons_append, List.cons.injEq,
        true_and]
      exact List.take_append_drop k xs

/-- The number of slices is `⌈len / cs⌉`, written `(len + cs - 1) / cs`. -/
theorem chunkGo_length (cs : Nat) (hcs : 0 < cs) :
    ∀ (fuel : Nat) (l : List Char), l.length ≤ fuel →
      (chunkGo fuel cs l).length = (l.length + cs - 1) / cs := by
  intro fuel
  induction fuel with
  | zero =>
    intro l h
    have hl : l = [] := List.eq_nil_of_length_eq_zero (Nat.le_zero.mp h)
    subst hl
    simp only [chunkGo_nil, List.length_nil]
    rw [Nat.div_eq_of_lt (by omega)]
  | succ f ih =>
    intro l h
    cases l with
    | nil =>
      simp only [chunkGo_nil, List.length_nil]
      rw [Nat.div_eq_of_lt (by omega)]
    | cons x xs =>
      simp only [chunkGo, List.length_cons]
      rw [ih (xs.drop (cs - 1)) (by
        simp only [List.length_drop]
        simp only [List.length_cons] at h
        omega)]
      simp only [List.length_drop]
      have hr : xs.length + 1 + cs - 1 = xs.length + cs := by omega
      rw [hr, Nat.add_div_right _ hcs]
      rcases Nat.lt_or_ge xs.length (cs - 1) with hlt | hge
      · rw [Nat.div_eq_of_lt (by omega), Nat.div_eq_of_lt (by omega)]
      · have hx : xs.length - (cs - 1) + cs - 1 = xs.length := by omega
        rw [hx]

/-- Every slice is non-empty of length at most `cs`, and every slice other
than the last has length exactly `cs`. -/
theorem chunkGo_sizes (cs : Nat) (hcs : 0 < cs) :
    ∀ (fuel : Nat) (l : List Char), l.length ≤ fuel →
      (∀ c ∈ chunkGo fuel cs l, c.length ≤ cs ∧ c ≠ []) ∧
      (∀ i : Nat, i + 1 < (chunkGo fuel cs l).length →
        ((chunkGo fuel cs l).getD i []).length = cs) := by
  intro fuel
  induction fuel with
  | zero =>
    intro l h
    have hl : l = [] := List.eq_nil_of_length_eq_zero (Nat.le_zero.mp h)
    subst hl
    simp [chunkGo_nil]
  | succ f ih =>
    intro l h
    cases l with
    | nil => simp [chunkGo_nil]
    | cons x xs =>
      simp only [List.length_cons] at h
      have hfd : (xs.drop (cs - 1)).length ≤ f := by
        simp only [List.length_drop]
        omega
      obtain ⟨ihmem, ihidx⟩ := ih (xs.drop (cs - 1)) hfd
      simp only [chunkGo]
      constructor
      · intro c hc
        rcases List.mem_cons.mp hc with rfl | hc2
        · constructor
          · simp only [List.length_take, List.length_cons]
            omega
          · obtain ⟨k, rfl⟩ : ∃ k, cs = k + 1 := ⟨cs - 1, by omega⟩
            simp [List.take_succ_cons]
        · exact ihmem c hc2
      · intro i hi
        cases i with
        | zero =>
          simp only [List.length_cons] at hi
          have hne : xs.drop (cs - 1) ≠ [] := by
            intro he
            rw [he, chunkGo_nil] at hi
            simp at hi
          have hlen : 0 < (xs.drop (cs - 1)).length := List.length_pos.mpr hne
          simp only [List.length_drop] at hlen
          simp only [List.getD_cons_zero, List.length_take, List.length_cons]
          omega
        | succ j =>
          simp only [List.length_cons] at hi
          simp only [List.getD_cons_succ]
          exact ihidx j (by omega)

/-! ### Claim C7 -/

/-- C7: for every text and positive chunk size, `chunk` succeeds and
returns exactly `⌈len(text) / chunk_size⌉` spans in order: every span but
possibly the last has length exactly `chunk_size`, every span is non-empty
of length at most `chunk_size`, and concatenating the spans in order yields
the original text. -/
theorem c7_chunk_fixed_width_slicing (text : List Char) (cs : Nat) (hcs : 0 < cs) :
    chunk text cs = some (chunkCore cs text) ∧
    (chunkCore cs text).length = (text.length + cs - 1) / cs ∧
    (∀ i : Nat, i + 1 < (chunkCore cs text).length →
      ((chunkCore cs text).getD i []).length = cs) ∧
    (∀ c ∈ chunkCore cs text, c.length ≤ cs ∧ c ≠ []) ∧
    (chunkCore cs text).flatten = text := by
  have h0 : cs ≠ 0 := by omega
  refine ⟨by simp [chunk, h0], ?_, ?_, ?_, ?_⟩
  · exact chunkGo_length cs hcs text.length text (le_refl _)
  · exact (chunkGo_sizes cs hcs text.length text (le_refl _)).2
  · exact (chunkGo_sizes cs hcs text.length text (le_refl _)).1
  · exact chunkGo_join cs hcs text.length text (le_refl _)

/-- C7 witness: the theorem applied to the concrete text `"hello"` with
chunk size 2. -/
theorem c7_chunk_fixed_width_slicing_witness :
    (0 : Nat) < 2 ∧ chunk "hello".data 2 = some (chunkCore 2 "hello".data) ∧
    (chunkCore 2 "hello".data).flatten = "hello".data :=
  ⟨by decide, (c7_chunk_fixed_width_slicing "hello".data 2 (by decide)).1,
    (c7_chunk_fixed_width_slicing "hello".data 2 (by decide)).2.2.2.2⟩

/-! ### Loop invariants (for claims C4 and C5) -/

/-- The loop never touches `docs_total` or `status` of the job record, on
the final state or on any persisted snapshot. -/
theorem runLoop_totals (req : IngestionRequest) (eff : String → DocEffects) (docs : List Doc) :
    ∀ st : ProcState,
      (runLoop req eff docs st).1.job.docs_total = st.job.docs_total ∧
      (runLoop req eff docs st).1.job.status = st.job.status ∧
      (∀ j ∈ (runLoop req eff docs st).2,
        j.docs_total = st.job.docs_total ∧ j.status = st.job.status) := by
  induction docs with
  | nil =>
    intro st
    simp [runLoop]
  | cons d ds ih =>
    intro st
    obtain ⟨hp1, hp2, hp3, _⟩ := processDoc_job req st d (eff d.id)
    obtain ⟨i1, i2, i3⟩ := ih (processDoc req st d (eff d.id))
    simp only [runLoop]
    refine ⟨by rw [i1, hp2], by rw [i2, hp3], ?_⟩
    intro j hj
    rcases List.mem_cons.mp hj with rfl | hj2
    · exact ⟨hp2, hp3⟩
    · obtain ⟨a, b⟩ := i3 j hj2
      exact ⟨a.trans hp2, b.trans hp3⟩

/-- Progress bookkeeping of the loop: `docs_processed` grows by exactly one
per document; the persisted `docs_done` never exceeds the documents
processed, never decreases, and the persisted snapshots are monotonically
non-decreasing in `docs_done`. -/
theorem runLoop_docs_done (req : IngestionRequest) (eff : String → DocEffects) (docs : List Doc) :
    ∀ st : ProcState, st.job.docs_done ≤ st.docs_processed →
      (runLoop req eff docs st).1.docs_processed = st.docs_processed + docs.length ∧
      (runLoop req eff docs st).1.job.docs_done ≤ (runLoop req eff docs st).1.docs_processed ∧
      st.job.docs_done ≤ (runLoop req eff docs st).1.job.docs_done ∧
      (∀ j ∈ (runLoop req eff docs st).2,
        st.job.docs_done ≤ j.docs_done ∧
          j.docs_done ≤ (runLoop req eff docs st).1.job.docs_done) ∧
      List.Pairwise (fun a b => a ≤ b)
        ((runLoop req eff docs st).2.map JobRecord.docs_done) := by
  induction docs with
  | nil =>
    intro st h
    simp only [runLoop]
    exact ⟨by simp, h, le_refl _, by simp, by simp⟩
  | cons d ds ih =>
    intro st h
    obtain ⟨hp1, _, _, hp4⟩ := processDoc_job req st d (eff d.id)
    have h1 : (processDoc req st d (eff d.id)).job.docs_done ≤
        (processDoc req st d (eff d.id)).docs_processed := by
      rcases hp4 with h4 | h4 <;> omega
    have hd1 : st.job.docs_done ≤ (processDoc req st d (eff d.id)).job.docs_done := by
      rcases hp4 with h4 | h4 <;> omega
    obtain ⟨i1, i2, i3, i4, i5⟩ := ih (processDoc req st d (eff d.id)) h1
    simp only [runLoop]
    refine ⟨?_, i2, hd1.trans i3, ?_, ?_⟩
    · rw [i1, hp1, List.length_cons]
      omega
    · intro j hj
      rcases List.mem_cons.mp hj with rfl | hj2
      · exact ⟨hd1, i3⟩
      · obtain ⟨a, b⟩ := i4 j hj2
        exact ⟨hd1.trans a, b⟩
    · rw [List.map_cons]
      refine List.Pairwise.cons ?_ i5
      intro b hb
      obtain ⟨j, hj, rfl⟩ := List.mem_map.mp hb
      exact (i4 j hj).1

/-! ### Claim C4 (amended theorem) -/

/-- C4 (amended): the persisted `docs_done` snapshots a poller can observe
are monotonically non-decreasing, and when the registry is unchanged
between job creation and loop execution the final `docs_done` equals
`docs_total` exactly (so it never exceeds it); but `docs_total` is counted
at creation while the loop re-runs the query at execution time, so
documents added in between push `docs_done` above `docs_total` (see the
counterexample). -/
theorem c4_docs_done_monotone_bounded_without_concurrent_adds
    (subject : String) (req : IngestionRequest) (reg : List Doc) (eff : String → DocEffects) :
    List.Pairwise (fun a b => a ≤ b)
      ((process_ingestion req (start_ingestion subject req reg).2 reg
          (start_ingestion subject req reg).1 eff).2.map JobRecord.docs_done) ∧
    (process_ingestion req (start_ingestion subject req reg).2 reg
        (start_ingestion subject req reg).1 eff).1.job.docs_done =
      (start_ingestion subject req reg).1.docs_total := by
  simp only [process_ingestion, start_ingestion]
  set q := docsQuery subject req.mode req.doc_ids with hq
  set st0 : ProcState :=
    { registry := reg, docs_processed := 0, total_vectors := 0,
      job := { status := IngestionStatus.running, docs_total := (reg.filter q).length,
               docs_done := 0, vectors := 0 } } with hst0
  have hinv : st0.job.docs_done ≤ st0.docs_processed := le_refl 0
  obtain ⟨i1, i2, i3, i4, i5⟩ := runLoop_docs_done req eff (reg.filter q) st0 hinv
  constructor
  · simp only [List.map_cons, List.map_append, List.map_cons, List.map_nil]
    refine List.Pairwise.cons ?_ ?_
    · intro b _
      exact Nat.zero_le b
    · simp only [List.append_eq]
      rw [List.pairwise_append]
      refine ⟨i5, by simp, ?_⟩
      intro a ha b hb
      obtain ⟨j, hj, rfl⟩ := List.mem_map.mp ha
      simp only [List.mem_singleton] at hb
      subst hb
      simp only [finalCompletedWrite]
      exact (i4 j hj).2.trans i2
  · simp only [finalCompletedWrite]
    rw [i1]
    simp

/-! ### Claim C5 (amended theorem) -/

/-- C5 (amended): `docs_total` equals the exact count of documents matching
the mode's filter at creation time, where the filter is exactly the spec's
filter for `new`, `all`, `reingest`, and for `selected` with a non-empty id
list — but for `selected` with an absent or empty id list the code falls
back to the NEW-mode filter instead of the empty selected filter; and
`docs_total` is never recomputed afterward: the final job record and every
persisted snapshot carry the creation-time value. -/
theorem c5_docs_total_matches_filter_modulo_selected_fallback
    (subject : String) (mode : IngestionMode) (ids : Option (List String)) (d : Doc)
    (req : IngestionRequest) (reg : List Doc) (q : Doc → Bool) (job0 : JobRecord)
    (eff : String → DocEffects) :
    (docsQuery subject mode ids d =
      if mode = IngestionMode.selected ∧ truthyIds ids = false then
        specModeFilter subject IngestionMode.new none d
      else specModeFilter subject mode ids d) ∧
    (start_ingestion subject req reg).1.docs_total =
      (reg.filter (docsQuery subject req.mode req.doc_ids)).length ∧
    (process_ingestion req q reg job0 eff).1.job.docs_total = job0.docs_total ∧
    (∀ j ∈ (process_ingestion req q reg job0 eff).2, j.docs_total = job0.docs_total) := by
  refine ⟨?_, rfl, ?_, ?_⟩
  · cases mode <;> cases htr : truthyIds ids <;>
      simp [docsQuery, specModeFilter, htr]
  · simp only [process_ingestion, finalCompletedWrite]
    have := (runLoop_totals req eff (reg.filter q)
      { registry := reg, docs_processed := 0, total_vectors := 0,
        job := { job0 with status := IngestionStatus.running } }).1
    simpa using this
  · intro j hj
    simp only [process_ingestion] at hj
    obtain ⟨h1, _, h3⟩ := runLoop_totals req eff (reg.filter q)
      { registry := reg, docs_processed := 0, total_vectors := 0,
        job := { job0 with status := IngestionStatus.running } }
    rcases List.mem_cons.mp hj with rfl | hj2
    · rfl
    · rcases List.mem_append.mp hj2 with hj3 | hj4
      · simpa using (h3 j hj3).1
      · simp only [List.mem_singleton] at hj4
        subst hj4
        simpa [finalCompletedWrite] using h1

end Cetec
